import Mathlib

/-!
# Verification of the `InfinityConnectionPool` wrapper

A shallow embedding of `common/doc_store/infinity_conn_pool.py`:

* URI parsing (`InfinityConnectionPool.__init__`, the `try/except` block):
  Python strings are modelled as `List Char`; `str.split`, `str.rstrip`
  and `int(...)` are modelled by executable Lean functions below.
* the bounded-retry construction loop (`__init__`, the `for _ in range(24)`
  loop): the external `ConnectionPool`/`show_current_node` calls are
  modelled by an oracle assigning each retry round an outcome, either
  "some exception was raised inside the try block" or "the probe returned
  a response with the given error-code flag and server status".
* `refresh_conn_pool`: the manager state (stored pool attribute, pool
  construction counter, destroy/build events, log records) is explicit,
  and the probe / rebuild outcomes are oracle parameters.

Pools are identified by natural numbers; a fresh `ConnectionPool(...)`
call yields the manager's next unused identifier, which models Python
object identity (a newly constructed object is distinct from every
existing one).  Log records keep only the level, which is what the
specification talks about.
-/

namespace InfinityPool

/-- Level of a `logging` call performed by the code. -/
inductive LogEvent
  | warning
  | error
  | info
deriving DecidableEq

/-- `infinity.common.NetworkAddress(host, port)`: a plain record. -/
structure NetworkAddress where
  host : List Char
  port : Int
deriving DecidableEq

/-- The fixed fallback address `NetworkAddress("127.0.0.1", 23817)`. -/
def defaultAddr : NetworkAddress :=
  ⟨['1', '2', '7', '.', '0', '.', '0', '.', '1'], 23817⟩

/-! ## Python string primitives -/

/-- The whitespace characters stripped by Python's `int(str)`. -/
def isPyWs (c : Char) : Bool :=
  c = ' ' || c = '\t' || c = '\n' || c = '\r' || c = '\x0b' || c = '\x0c'

/-- Strip `isPyWs` characters from both ends (as `int(str)` does). -/
def pyTrim (l : List Char) : List Char :=
  ((l.dropWhile isPyWs).reverse.dropWhile isPyWs).reverse

/-- Value of a big-endian list of decimal digit characters. -/
def digitsVal (l : List Char) : Nat :=
  l.foldl (fun a c => a * 10 + (c.toNat - 48)) 0

/-- Parse a nonempty all-digit string, the core of `int(str)`. -/
def pyIntDigits (l : List Char) : Option Nat :=
  if l.isEmpty then none
  else if l.all Char.isDigit then some (digitsVal l) else none

/-- Model of Python `int(str)`: optional surrounding whitespace, an
    optional sign, then decimal digits.  (Underscore digit grouping,
    which CPython also accepts, is not modelled; no claim involves it.)
    `none` models `int` raising `ValueError`. -/
def pyInt (l : List Char) : Option Int :=
  match pyTrim l with
  | '-' :: rest => (pyIntDigits rest).map (fun n => -(n : Int))
  | '+' :: rest => (pyIntDigits rest).map (fun n => (n : Int))
  | t => (pyIntDigits t).map (fun n => (n : Int))

/-- Little-endian list of the decimal digits of `n`, with explicit fuel
    (`fuel ≥ n` suffices for the recursion to finish). -/
def natToRevDigits : Nat → Nat → List Nat
  | 0, _ => []
  | fuel + 1, n => if n = 0 then [] else n % 10 :: natToRevDigits fuel (n / 10)

/-- The usual decimal representation of a natural number, as characters;
    the port strings that Python's `int` and `str` agree on. -/
def decRepr (n : Nat) : List Char :=
  if n = 0 then ['0'] else ((natToRevDigits n n).map Nat.digitChar).reverse

/-- Cons a character onto the first piece of a split result. -/
def headCons (c : Char) : List (List Char) → List (List Char)
  | [] => [[c]]
  | p :: ps => (c :: p) :: ps

/-- Python `s.split("://")`: pieces between non-overlapping occurrences
    of `"://"`, scanned left to right. -/
def splitSep : List Char → List (List Char)
  | [] => [[]]
  | [c] => [[c]]
  | [c, d] => [[c, d]]
  | c :: d :: e :: rest =>
    if c = ':' ∧ d = '/' ∧ e = '/' then [] :: splitSep rest
    else headCons c (splitSep (d :: e :: rest))

/-- Python `"://" in s`. -/
def hasSep : List Char → Bool
  | [] => false
  | [_] => false
  | [_, _] => false
  | c :: d :: e :: rest =>
    (c = ':' && d = '/' && e = '/') || hasSep (d :: e :: rest)

/-- Python `s.split(":")`. -/
def splitColon : List Char → List (List Char)
  | [] => [[]]
  | c :: rest =>
    if c = ':' then [] :: splitColon rest else headCons c (splitColon rest)

/-- Python `":" in s`. -/
def hasColon (l : List Char) : Bool := l.any (fun c => c = ':')

/-- Python `s.rstrip("/")`. -/
def pyRstripSlash (l : List Char) : List Char :=
  (l.reverse.dropWhile (fun c => c = '/')).reverse

/-! ## URI parsing (`__init__`, lines 42-68) -/

/-- The scheme-stripping step of `__init__`:
    `if "://" in clean_uri: clean_uri = clean_uri.split("://")[-1]`. -/
def stripScheme (chars : List Char) : List Char :=
  if hasSep chars then (splitSep chars).getLastD [] else chars

/-- The suffix after the first occurrence of `"://"` (unchanged if none).
    This is NOT what the code computes; it is the spec's description
    ("split on the first occurrence of `://`, keep the remainder"),
    defined here to compare against `stripScheme`. -/
def afterFirstSep : List Char → List Char
  | [] => []
  | [c] => [c]
  | [c, d] => [c, d]
  | c :: d :: e :: rest =>
    if c = ':' ∧ d = '/' ∧ e = '/' then rest
    else afterFirstSep (d :: e :: rest)

/-- Spec-worded scheme stripping: split on the FIRST `"://"`, keep the
    remainder (the input itself when it has no `"://"`). -/
def stripSchemeSpec (chars : List Char) : List Char :=
  if hasSep chars then afterFirstSep chars else chars

/-- `clean_uri` after scheme stripping and `rstrip("/")`. -/
def cleanUri (chars : List Char) : List Char :=
  pyRstripSlash (stripScheme chars)

/-- An optional `scheme://` in front of a URI (the scheme text itself is
    arbitrary). -/
def schemePart : Option (List Char) → List Char
  | none => []
  | some s => s ++ [':', '/', '/']

/-- Body of the parsing `try` block: the logs it emits, and `some addr`
    when it completes, `none` when `int(...)` raises.  (The only raising
    operation in the block is `int(port_str)`; `NetworkAddress` is an
    external plain constructor.) -/
def parseTry (chars : List Char) : List LogEvent × Option NetworkAddress :=
  let clean := cleanUri chars
  if hasColon clean then
    let parts := splitColon clean
    if parts.length = 2 then
      -- host, port_str = parts; port = int(port_str)
      match pyInt (parts.getLastD []) with
      | some port => ([], some ⟨parts.headD [], port⟩)
      | none => ([], none)
    else
      -- logging.warning(...); port = int(parts[-1]); host = parts[-2]
      match pyInt (parts.getLastD []) with
      | some port => ([.warning], some ⟨parts.getD (parts.length - 2) [], port⟩)
      | none => ([.warning], none)
  else
    -- host only: keep the default port 23817
    ([], some ⟨clean, 23817⟩)

/-- The whole robust-parsing block of `__init__`: on an exception inside
    the `try`, log an error and fall back to `NetworkAddress("127.0.0.1",
    23817)`.  Returns the resolved address and the logs, in order. -/
def parseInfinityUri (chars : List Char) : NetworkAddress × List LogEvent :=
  match parseTry chars with
  | (logs, some addr) => (addr, logs)
  | (logs, none) => (defaultAddr, logs ++ [.error])

/-! ## The bounded-retry construction loop (`__init__`, lines 70-87)

The external calls of one retry round (`ConnectionPool(self.infinity_uri,
max_size=4)`, `conn_pool.get_conn()`, `inf_conn.show_current_node()`) are
folded into one oracle answer per round: either some exception was raised
inside the `try` block, or the probe returned a response carrying an
`error_code == ErrorCode.OK` flag and a `server_status` string. -/

/-- Outcome of the external calls inside one retry round's `try` block. -/
inductive RoundOutcome
  | throws
  | probe (ok : Bool) (status : String)
deriving DecidableEq

/-- Whether a round outcome is an exception. -/
def RoundOutcome.isThrows : RoundOutcome → Bool
  | .throws => true
  | .probe _ _ => false

/-- The success condition of a round:
    `res.error_code == ErrorCode.OK and res.server_status in ["started", "alive"]`
    (an exception is never a success). -/
def roundSucceeds : RoundOutcome → Bool
  | .throws => false
  | .probe ok status => ok && (status == "started" || status == "alive")

/-- Python errors the constructor can terminate with. -/
inductive PyError
  | attributeError
  | exception (msg : String)
deriving DecidableEq

/-- Observable state accumulated by `__init__`'s retry loop:
    the `conn_pool` attribute (`none` = never assigned, `some none` =
    assigned `None`, `some (some i)` = the pool built in round `i`),
    the durations of the `time.sleep` calls, and the log records. -/
structure InitState where
  connPool : Option (Option Nat)
  sleeps : List Nat
  logs : List LogEvent
deriving DecidableEq

/-- Effect of a failed round: on an exception, `logging.warning(...)` and
    `time.sleep(5)`; a probe response that merely misses the success
    condition does nothing (the `try` body just falls through). -/
def stepFail (o : RoundOutcome) (st : InitState) : InitState :=
  match o with
  | .throws => { st with logs := st.logs ++ [.warning], sleeps := st.sleeps ++ [5] }
  | .probe _ _ => st

/-- `for _ in range(fuel)` starting at round index `i`: stop (`break`)
    storing the round's pool as soon as a round meets the success
    condition, otherwise apply the round's failure effect and continue. -/
def initLoop (outcome : Nat → RoundOutcome) : Nat → Nat → InitState → InitState
  | 0, _, st => st
  | fuel + 1, i, st =>
    if roundSucceeds (outcome i) then { st with connPool := some (some i) }
    else initLoop outcome fuel (i + 1) (stepFail (outcome i) st)

/-- The retry-loop portion of `__init__` (after address resolution): run
    24 rounds, then execute `if self.conn_pool is None: ...`.  Reading
    `self.conn_pool` raises `AttributeError` when the attribute was never
    assigned; when it is `None` the code logs an error and raises
    `Exception(msg)`; otherwise it logs the healthy info message. -/
def infInit (outcome : Nat → RoundOutcome) : InitState × Option PyError :=
  let st := initLoop outcome 24 0 ⟨none, [], []⟩
  match st.connPool with
  | none => (st, some .attributeError)
  | some none => ({ st with logs := st.logs ++ [.error] }, some (.exception "unhealthy"))
  | some (some _) => ({ st with logs := st.logs ++ [.info] }, none)

/-- Failure effects of `n` consecutive failing rounds starting at `i`. -/
def applyFails (outcome : Nat → RoundOutcome) : Nat → Nat → InitState → InitState
  | _, 0, st => st
  | i, n + 1, st => applyFails outcome (i + 1) n (stepFail (outcome i) st)

/-- How many of rounds `i, i+1, ..., i+n-1` raise an exception. -/
def throwCount (outcome : Nat → RoundOutcome) : Nat → Nat → Nat
  | _, 0 => 0
  | i, n + 1 => (if (outcome i).isThrows then 1 else 0) + throwCount outcome (i + 1) n

/-! ## `refresh_conn_pool` (lines 93-107) -/

/-- A `ConnectionPool(addr, max_size)` construction event. -/
structure BuildEvent where
  pool : Nat
  addr : NetworkAddress
  maxSize : Nat
deriving DecidableEq

/-- Manager state seen by `refresh_conn_pool`: the `conn_pool` attribute
    (as in `InitState`), the resolved `infinity_uri`, a counter supplying
    fresh pool identities, and the `destroy()` / construction events and
    logs recorded so far. -/
structure MgrState where
  connPool : Option (Option Nat)
  infinityUri : NetworkAddress
  nextId : Nat
  destroyed : List Nat
  built : List BuildEvent
  logs : List LogEvent
deriving DecidableEq

/-- Pool identities stored in the state are older than the counter, so a
    freshly constructed pool is distinct from the stored one. -/
def MgrState.WF (st : MgrState) : Prop :=
  ∀ p, st.connPool = some (some p) → p < st.nextId

/-- The external outcomes a `refresh_conn_pool` call can meet: the result
    of `get_conn()` + `show_current_node()` on the stored pool, and
    whether `ConnectionPool(self.infinity_uri, max_size=32)` succeeds in
    the rebuild path. -/
structure RefreshEnv where
  probe : RoundOutcome
  buildOk : Bool

/-- The `except Exception` branch of `refresh_conn_pool`, entered after
    `logging.error(str(e))`: `if hasattr(self, "conn_pool") and
    self.conn_pool:` destroy the stored pool and construct a replacement
    with `max_size=32` (an exception there propagates, the destroy already
    recorded); otherwise fall off the end, returning Python `None`. -/
def refreshExcept (env : RefreshEnv) (st : MgrState) :
    MgrState × Except PyError (Option Nat) :=
  match st.connPool with
  | some (some p) =>
    let st1 := { st with destroyed := st.destroyed ++ [p] }
    if env.buildOk then
      ({ st1 with built := st1.built ++ [⟨st.nextId, st.infinityUri, 32⟩],
                  connPool := some (some st.nextId),
                  nextId := st.nextId + 1 }, .ok (some st.nextId))
    else (st1, .error (.exception "ConnectionPool"))
  | _ => (st, .ok none)

/-- `refresh_conn_pool()`: with a stored pool, probe it and return it
    unchanged on success; any failure (an exception — including the
    `AttributeError` from `self.conn_pool.get_conn()` when the attribute
    is absent or `None` — or the explicitly raised bad-status exception)
    lands in the `except` branch after an error log. -/
def refresh (env : RefreshEnv) (st : MgrState) :
    MgrState × Except PyError (Option Nat) :=
  match st.connPool with
  | some (some p) =>
    if roundSucceeds env.probe then (st, .ok (some p))
    else refreshExcept env { st with logs := st.logs ++ [.error] }
  | _ => refreshExcept env { st with logs := st.logs ++ [.error] }

/-! ## Concrete inputs used by witnesses and counterexamples -/

/-- A probe that raises in every round. -/
def alwaysThrows : Nat → RoundOutcome := fun _ => .throws

/-- Rounds 0-3 return a failing status without raising; round 4 succeeds. -/
def badStatusRounds : Nat → RoundOutcome :=
  fun i => if i < 4 then .probe false "bad" else .probe true "started"

/-- Rounds 0-3 raise; round 4 succeeds. -/
def throwingRounds : Nat → RoundOutcome :=
  fun i => if i < 4 then .throws else .probe true "alive"

/-- A healthy manager state holding pool `0`. -/
def stPoolW : MgrState := ⟨some (some 0), defaultAddr, 1, [], [], []⟩

/-- A manager state whose `conn_pool` attribute holds `None`. -/
def stNoneW : MgrState := ⟨some none, defaultAddr, 1, [], [], []⟩

/-! ## Lemmas about the decimal representation -/

theorem natToRevDigits_all_lt (fuel : Nat) :
    ∀ n d, d ∈ natToRevDigits fuel n → d < 10 := by
  induction fuel with
  | zero => intro n d h; simp [natToRevDigits] at h
  | succ f ih =>
    intro n d h
    by_cases hn : n = 0
    · simp [natToRevDigits, hn] at h
    · simp only [natToRevDigits, if_neg hn, List.mem_cons] at h
      rcases h with h | h
      · subst h; exact Nat.mod_lt _ (by omega)
      · exact ih _ _ h

theorem natToRevDigits_foldr (fuel : Nat) :
    ∀ n, n ≤ fuel →
      (natToRevDigits fuel n).foldr (fun d a => a * 10 + d) 0 = n := by
  induction fuel with
  | zero => intro n h; interval_cases n; simp [natToRevDigits]
  | succ f ih =>
    intro n h
    by_cases hn : n = 0
    · simp [natToRevDigits, hn]
    · simp only [natToRevDigits, if_neg hn, List.foldr_cons]
      rw [ih (n / 10) (by omega)]
      omega

theorem natToRevDigits_ne_nil (f n : Nat) (hn : n ≠ 0) :
    natToRevDigits (f + 1) n ≠ [] := by
  simp [natToRevDigits, hn]

theorem digitChar_isDigit (d : Nat) (h : d < 10) :
    (Nat.digitChar d).isDigit = true := by
  interval_cases d <;> decide

theorem digitChar_toNat (d : Nat) (h : d < 10) :
    (Nat.digitChar d).toNat = 48 + d := by
  interval_cases d <;> decide

theorem decRepr_ne_nil (n : Nat) : decRepr n ≠ [] := by
  unfold decRepr
  by_cases hn : n = 0
  · simp [hn]
  · rw [if_neg hn]
    intro h
    rcases n with _ | m
    · exact hn rfl
    · exact natToRevDigits_ne_nil m (m + 1) hn (by
        have := congrArg List.length h
        simp at this
        exact this)

theorem decRepr_all_digits (n : Nat) :
    ∀ c ∈ decRepr n, c.isDigit = true := by
  unfold decRepr
  by_cases hn : n = 0
  · simp [hn]
  · rw [if_neg hn]
    intro c hc
    rw [List.mem_reverse, List.mem_map] at hc
    obtain ⟨d, hd, rfl⟩ := hc
    exact digitChar_isDigit d (natToRevDigits_all_lt n n d hd)

theorem foldr_digitChar (L : List Nat) (h : ∀ d ∈ L, d < 10) :
    L.foldr (fun d a => a * 10 + ((Nat.digitChar d).toNat - 48)) 0 =
      L.foldr (fun d a => a * 10 + d) 0 := by
  induction L with
  | nil => rfl
  | cons d t ih =>
    simp only [List.foldr_cons]
    rw [ih (fun x hx => h x (List.mem_cons_of_mem _ hx)),
      digitChar_toNat d (h d (List.mem_cons_self _ _))]
    omega

theorem digitsVal_decRepr (n : Nat) : digitsVal (decRepr n) = n := by
  by_cases hn : n = 0
  · subst hn; decide
  · unfold decRepr digitsVal
    rw [if_neg hn, List.foldl_reverse, List.foldr_map,
      foldr_digitChar _ (natToRevDigits_all_lt n n)]
    exact natToRevDigits_foldr n n (Nat.le_refl n)

theorem pyIntDigits_decRepr (n : Nat) : pyIntDigits (decRepr n) = some n := by
  unfold pyIntDigits
  rw [if_neg (by simpa [List.isEmpty_iff] using decRepr_ne_nil n)]
  rw [if_pos (by rw [List.all_eq_true]; exact decRepr_all_digits n)]
  rw [digitsVal_decRepr]

theorem isPyWs_of_isDigit (c : Char) (h : c.isDigit = true) :
    isPyWs c = false := by
  unfold isPyWs
  by_cases h1 : c = ' '
  · rw [h1] at h; exact absurd h (by decide)
  by_cases h2 : c = '\t'
  · rw [h2] at h; exact absurd h (by decide)
  by_cases h3 : c = '\n'
  · rw [h3] at h; exact absurd h (by decide)
  by_cases h4 : c = '\r'
  · rw [h4] at h; exact absurd h (by decide)
  by_cases h5 : c = '\x0b'
  · rw [h5] at h; exact absurd h (by decide)
  by_cases h6 : c = '\x0c'
  · rw [h6] at h; exact absurd h (by decide)
  simp [h1, h2, h3, h4, h5, h6]

theorem dropWhile_isPyWs_of_digits (l : List Char)
    (h : ∀ c ∈ l, c.isDigit = true) : l.dropWhile isPyWs = l := by
  cases l with
  | nil => rfl
  | cons c t =>
    rw [List.dropWhile_cons, isPyWs_of_isDigit c (h c (List.mem_cons_self _ _))]
    simp

theorem pyTrim_of_digits (l : List Char) (h : ∀ c ∈ l, c.isDigit = true) :
    pyTrim l = l := by
  unfold pyTrim
  rw [dropWhile_isPyWs_of_digits l h,
    dropWhile_isPyWs_of_digits l.reverse
      (fun c hc => h c (List.mem_reverse.mp hc)),
    List.reverse_reverse]

theorem pyInt_decRepr (n : Nat) : pyInt (decRepr n) = some (n : Int) := by
  unfold pyInt
  rw [pyTrim_of_digits _ (decRepr_all_digits n)]
  obtain ⟨c, t, hct⟩ := List.exists_cons_of_ne_nil (decRepr_ne_nil n)
  have hc : c.isDigit = true := by
    apply decRepr_all_digits n
    rw [hct]; exact List.mem_cons_self _ _
  rw [hct]
  have h1 : c ≠ '-' := by intro h; rw [h] at hc; exact absurd hc (by decide)
  have h2 : c ≠ '+' := by intro h; rw [h] at hc; exact absurd hc (by decide)
  split
  · next rest heq =>
    exact absurd (List.head_eq_of_cons_eq heq) h1
  · next rest heq =>
    exact absurd (List.head_eq_of_cons_eq heq) h2
  · rw [← hct, pyIntDigits_decRepr]
    rfl

/-! ## Lemmas about the splitting primitives -/

theorem headCons_ne_nil (c : Char) (ls : List (List Char)) :
    headCons c ls ≠ [] := by
  cases ls <;> simp [headCons]

theorem headCons_append (c : Char) (xs ys : List (List Char)) (h : xs ≠ []) :
    headCons c (xs ++ ys) = headCons c xs ++ ys := by
  cases xs with
  | nil => exact absurd rfl h
  | cons p ps => simp [headCons]

theorem splitSep_ne_nil : ∀ l : List Char, splitSep l ≠ [] := by
  intro l
  induction l using splitSep.induct with
  | case1 => simp [splitSep]
  | case2 c => simp [splitSep]
  | case3 c d => simp [splitSep]
  | case4 c d e rest h ih => simp [splitSep, h]
  | case5 c d e rest h ih =>
    rw [splitSep, if_neg h]
    exact headCons_ne_nil _ _

/-- Because `"://"` cannot overlap itself, splitting distributes over an
    explicit separator occurrence. -/
theorem splitSep_append (a b : List Char) :
    splitSep (a ++ ':' :: '/' :: '/' :: b) = splitSep a ++ splitSep b := by
  induction a using splitSep.induct with
  | case1 => simp [splitSep]
  | case2 c => simp [splitSep, headCons]
  | case3 c d => simp [splitSep, headCons]
  | case4 c d e rest h ih =>
    obtain ⟨rfl, rfl, rfl⟩ := h
    simp only [List.cons_append]
    rw [splitSep, if_pos ⟨rfl, rfl, rfl⟩, ih]
    rw [show splitSep (':' :: '/' :: '/' :: rest) = [] :: splitSep rest by
      rw [splitSep, if_pos ⟨rfl, rfl, rfl⟩]]
    simp
  | case5 c d e rest h ih =>
    simp only [List.cons_append]
    rw [splitSep, if_neg h]
    rw [show (d :: e :: (rest ++ ':' :: '/' :: '/' :: b))
        = (d :: e :: rest) ++ ':' :: '/' :: '/' :: b by simp]
    rw [ih]
    rw [show splitSep (c :: d :: e :: rest)
        = headCons c (splitSep (d :: e :: rest)) by rw [splitSep, if_neg h]]
    exact headCons_append c _ _ (splitSep_ne_nil _)

theorem splitSep_of_no_sep : ∀ l : List Char, hasSep l = false → splitSep l = [l] := by
  intro l
  induction l using splitSep.induct with
  | case1 => intro _; rfl
  | case2 c => intro _; rfl
  | case3 c d => intro _; rfl
  | case4 c d e rest h ih =>
    obtain ⟨rfl, rfl, rfl⟩ := h
    intro hs
    simp [hasSep] at hs
  | case5 c d e rest h ih =>
    intro hs
    rw [hasSep] at hs
    rw [Bool.or_eq_false_iff] at hs
    rw [splitSep, if_neg h, ih hs.2, headCons]

theorem hasSep_cons_of_ne (c : Char) (t : List Char) (h : c ≠ ':') :
    hasSep (c :: t) = hasSep t := by
  match t with
  | [] => rfl
  | [d] => rfl
  | d :: e :: t' => simp [hasSep, h]

theorem hasSep_cons_colon (d : Char) (t : List Char) (hd : d ≠ '/') :
    hasSep (':' :: d :: t) = hasSep (d :: t) := by
  match t with
  | [] => rfl
  | e :: t' => simp [hasSep, hd]

theorem hasSep_append_no_colon (a b : List Char) (h : ':' ∉ a) :
    hasSep (a ++ b) = hasSep b := by
  induction a with
  | nil => rfl
  | cons c t ih =>
    have hc : c ≠ ':' := fun hh => h (hh ▸ List.mem_cons_self c t)
    have ht : ':' ∉ t := fun hh => h (List.mem_cons_of_mem c hh)
    rw [List.cons_append, hasSep_cons_of_ne c _ hc, ih ht]

theorem hasSep_of_no_colon (l : List Char) (h : ':' ∉ l) : hasSep l = false := by
  have := hasSep_append_no_colon l [] h
  simpa using this

theorem hasSep_append_sep (a b : List Char) :
    hasSep (a ++ ':' :: '/' :: '/' :: b) = true := by
  by_contra h
  have h' : hasSep (a ++ ':' :: '/' :: '/' :: b) = false := by
    simpa using h
  have heq := splitSep_of_no_sep _ h'
  rw [splitSep_append] at heq
  have hlen := congrArg List.length heq
  rw [List.length_append] at hlen
  have ha : 0 < (splitSep a).length := List.length_pos.mpr (splitSep_ne_nil a)
  have hb : 0 < (splitSep b).length := List.length_pos.mpr (splitSep_ne_nil b)
  simp at hlen
  omega

/-! ## Lemmas about the scheme-stripping step -/

theorem stripScheme_last (a b : List Char) (hb : hasSep b = false) :
    stripScheme (a ++ ':' :: '/' :: '/' :: b) = b := by
  unfold stripScheme
  rw [hasSep_append_sep, if_pos rfl, splitSep_append, splitSep_of_no_sep b hb,
    List.getLastD_concat]

theorem stripScheme_of_no_sep (l : List Char) (h : hasSep l = false) :
    stripScheme l = l := by
  unfold stripScheme
  rw [h]
  simp

/-! ## Lemmas about colon splitting -/

theorem splitColon_ne_nil : ∀ l : List Char, splitColon l ≠ [] := by
  intro l
  induction l with
  | nil => simp [splitColon]
  | cons c t ih =>
    rw [splitColon]
    by_cases hc : c = ':'
    · simp [hc]
    · rw [if_neg hc]
      exact headCons_ne_nil _ _

theorem splitColon_append (a b : List Char) :
    splitColon (a ++ ':' :: b) = splitColon a ++ splitColon b := by
  induction a with
  | nil => simp [splitColon]
  | cons c t ih =>
    rw [List.cons_append, splitColon, splitColon]
    by_cases hc : c = ':'
    · simp [hc, ih]
    · rw [if_neg hc, if_neg hc, ih]
      exact headCons_append c _ _ (splitColon_ne_nil t)

theorem splitColon_no_colon (l : List Char) (h : ':' ∉ l) :
    splitColon l = [l] := by
  induction l with
  | nil => rfl
  | cons c t ih =>
    have hc : c ≠ ':' := fun hh => h (hh ▸ List.mem_cons_self c t)
    have ht : ':' ∉ t := fun hh => h (List.mem_cons_of_mem c hh)
    rw [splitColon, if_neg hc, ih ht, headCons]

theorem hasColon_append_colon (a b : List Char) :
    hasColon (a ++ ':' :: b) = true := by
  simp [hasColon]

/-! ## Lemmas about `rstrip("/")` -/

theorem dropWhile_slash_replicate (k : Nat) (x : List Char) :
    (List.replicate k '/' ++ x).dropWhile (fun c => c = '/')
      = x.dropWhile (fun c => c = '/') := by
  induction k with
  | zero => simp
  | succ m ih => simp [List.replicate_succ, List.dropWhile_cons, ih]

theorem pyRstripSlash_append_replicate (l : List Char) (k : Nat) :
    pyRstripSlash (l ++ List.replicate k '/') = pyRstripSlash l := by
  unfold pyRstripSlash
  rw [List.reverse_append, List.reverse_replicate, dropWhile_slash_replicate]

theorem pyRstripSlash_concat (l : List Char) (c : Char) (hc : c ≠ '/') :
    pyRstripSlash (l ++ [c]) = l ++ [c] := by
  unfold pyRstripSlash
  rw [List.reverse_append]
  simp [List.dropWhile_cons, hc]

/-! ## Assembly lemmas for the claims about parsing -/

theorem no_colon_decRepr (n : Nat) : ':' ∉ decRepr n := by
  intro h
  have := decRepr_all_digits n ':' h
  exact absurd this (by decide)

theorem no_slash_mem_decRepr (n : Nat) : '/' ∉ decRepr n := by
  intro h
  have := decRepr_all_digits n '/' h
  exact absurd this (by decide)

theorem getD_append_two (xs : List (List Char)) (a b d : List Char) :
    (xs ++ [a, b]).getD xs.length d = a := by
  rw [List.getD_eq_getElem?_getD, List.getElem?_append_right (Nat.le_refl _)]
  simp

theorem getLastD_append_two (xs : List (List Char)) (a b d : List Char) :
    (xs ++ [a, b]).getLastD d = b := by
  rw [show xs ++ [a, b] = (xs ++ [a]) ++ [b] by simp, List.getLastD_concat]

/-- The remainder `host ++ ":" ++ digits ++ slashes` contains no `"://"`
    when the host has no colon: the only colon is followed by a digit. -/
theorem hasSep_host_port (host : List Char) (n k : Nat) (hh : ':' ∉ host) :
    hasSep (host ++ ':' :: (decRepr n ++ List.replicate k '/')) = false := by
  rw [hasSep_append_no_colon host _ hh]
  obtain ⟨c, t, hct⟩ := List.exists_cons_of_ne_nil (decRepr_ne_nil n)
  have hc : c ≠ '/' := by
    intro h
    exact no_slash_mem_decRepr n (by rw [hct, h]; exact List.mem_cons_self _ _)
  rw [hct, List.cons_append, hasSep_cons_colon c _ hc]
  apply hasSep_of_no_colon
  intro hmem
  rw [List.mem_cons] at hmem
  rcases hmem with hmem | hmem
  · exact no_colon_decRepr n (by rw [hct, ← hmem]; exact List.mem_cons_self _ _)
  · rw [List.mem_append] at hmem
    rcases hmem with hmem | hmem
    · exact no_colon_decRepr n (by rw [hct]; exact List.mem_cons_of_mem _ hmem)
    · have := List.eq_of_mem_replicate hmem
      exact absurd this (by decide)

/-! ## Claims about `__init__`'s retry loop -/

/-- C1: when no round ever meets the success condition, `__init__` does
    terminate with an error and stores no pool — but the error that
    propagates is the `AttributeError` raised by reading the never
    assigned `self.conn_pool`, BEFORE the intended `logging.error` /
    `raise Exception(msg)` block runs, so no error-level record is
    logged.  Evaluation of the embedded code at an always-raising probe. -/
theorem init_exhausted_attribute_error :
    infInit alwaysThrows =
      (⟨none, List.replicate 24 5, List.replicate 24 .warning⟩, some .attributeError) ∧
    LogEvent.error ∉ (infInit alwaysThrows).1.logs := by
  decide

/-- Unfolding one retry round that meets the success condition. -/
theorem initLoop_success (outcome : Nat → RoundOutcome) (f i : Nat)
    (st : InitState) (h : roundSucceeds (outcome i) = true) :
    initLoop outcome (f + 1) i st = { st with connPool := some (some i) } := by
  simp [initLoop, h]

/-- Skipping `n` consecutive failing rounds accumulates their effects. -/
theorem initLoop_skip (outcome : Nat → RoundOutcome) :
    ∀ (n f i : Nat) (st : InitState),
      (∀ j, j < n → roundSucceeds (outcome (i + j)) = false) →
      initLoop outcome (n + f) i st =
        initLoop outcome f (i + n) (applyFails outcome i n st) := by
  intro n
  induction n with
  | zero => intro f i st _; simp [applyFails]
  | succ m ih =>
    intro f i st h
    have h0 : roundSucceeds (outcome i) = false := by
      have := h 0 (by omega); simpa using this
    have hfuel : m + 1 + f = (m + f) + 1 := by omega
    rw [hfuel]
    rw [show initLoop outcome ((m + f) + 1) i st
          = initLoop outcome (m + f) (i + 1) (stepFail (outcome i) st) by
        simp [initLoop, h0]]
    have hrest : ∀ j, j < m → roundSucceeds (outcome (i + 1 + j)) = false := by
      intro j hj
      have := h (j + 1) (by omega)
      have harith : i + (j + 1) = i + 1 + j := by omega
      rwa [harith] at this
    rw [ih f (i + 1) (stepFail (outcome i) st) hrest]
    have harith2 : i + 1 + m = i + (m + 1) := by omega
    rw [harith2]
    rfl

/-- One step of `throwCount`. -/
theorem throwCount_succ (outcome : Nat → RoundOutcome) (i m : Nat) :
    throwCount outcome i (m + 1) =
      (if (outcome i).isThrows then 1 else 0) + throwCount outcome (i + 1) m :=
  rfl

/-- `n` failing rounds append one `5`-unit sleep and one warning per
    exception-raising round, and nothing for silent bad-status rounds. -/
theorem applyFails_eq (outcome : Nat → RoundOutcome) :
    ∀ (n i : Nat) (st : InitState),
      applyFails outcome i n st =
        { st with
          sleeps := st.sleeps ++ List.replicate (throwCount outcome i n) 5,
          logs := st.logs ++ List.replicate (throwCount outcome i n) .warning } := by
  intro n
  induction n with
  | zero => intro i st; simp [applyFails, throwCount]
  | succ m ih =>
    intro i st
    rw [show applyFails outcome i (m + 1) st
          = applyFails outcome (i + 1) m (stepFail (outcome i) st) from rfl]
    rw [ih]
    rw [throwCount_succ]
    rcases ho : outcome i with _ | ⟨ok, status⟩
    · simp [stepFail, ho, RoundOutcome.isThrows, List.append_assoc]
      constructor <;> (rw [Nat.one_add]; rfl)
    · simp [stepFail, ho, RoundOutcome.isThrows]

/-- C2 (amended): during construction, a warning is logged and a fixed
    5-unit sleep happens only in rounds whose probe RAISES; a round whose
    probe returns a bad status/state without raising silently proceeds to
    the next round.  If the first 4 rounds fail (by raising or not) and
    round 5 succeeds, construction succeeds, retrying stops immediately
    after the 5th attempt (the result depends on rounds 0-4 only), and
    the number of 5-unit backoff sleeps equals the number of raising
    rounds among the first 4 — in particular 4 sleeps when all 4 raised,
    and 0 when all 4 failed silently. -/
theorem init_fail4_succeed5 (outcome : Nat → RoundOutcome)
    (h4 : ∀ j, j < 4 → roundSucceeds (outcome j) = false)
    (h5 : roundSucceeds (outcome 4) = true) :
    infInit outcome =
      (⟨some (some 4),
        List.replicate (throwCount outcome 0 4) 5,
        List.replicate (throwCount outcome 0 4) .warning ++ [.info]⟩, none) := by
  have hskip := initLoop_skip outcome 4 20 0 ⟨none, [], []⟩
    (by intro j hj; simpa using h4 j hj)
  unfold infInit
  rw [show (24 : Nat) = 4 + 20 from rfl, hskip]
  rw [show (20 : Nat) = 19 + 1 from rfl]
  rw [initLoop_success outcome 19 (0 + 4) _ (by simpa using h5)]
  rw [applyFails_eq]
  simp

/-- Witness for the amended C2: all of the first 4 rounds raise, round 5
    succeeds; 4 sleeps of 5 units and 4 warnings are recorded. -/
theorem init_fail4_succeed5_w :
    (∀ j, j < 4 → roundSucceeds (throwingRounds j) = false) ∧
    roundSucceeds (throwingRounds 4) = true ∧
    infInit throwingRounds =
      (⟨some (some 4), List.replicate 4 5,
        List.replicate 4 .warning ++ [.info]⟩, none) := by
  refine ⟨by decide, by decide, ?_⟩
  have h := init_fail4_succeed5 throwingRounds (by decide) (by decide)
  simpa [show throwCount throwingRounds 0 4 = 4 by decide] using h

/-- C2 counterexample: rounds 0-3 fail by returning a bad status WITHOUT
    raising, round 4 succeeds.  Construction succeeds after the 5th
    attempt, but no warning is logged and no backoff sleep happens at
    all — not the 4 sleeps the claim requires. -/
theorem init_silent_failures_no_sleep_cex :
    (∀ j, j < 4 → roundSucceeds (badStatusRounds j) = false) ∧
    roundSucceeds (badStatusRounds 4) = true ∧
    infInit badStatusRounds = (⟨some (some 4), [], [.info]⟩, none) ∧
    (infInit badStatusRounds).1.sleeps.length ≠ 4 ∧
    LogEvent.warning ∉ (infInit badStatusRounds).1.logs := by
  decide

/-! ## Claims about `refresh_conn_pool` -/

/-- C5: when the stored pool's probe returns OK status and a server state
    in {started, alive}, `refresh_conn_pool()` returns exactly the stored
    pool and leaves the whole manager state unchanged. -/
theorem refresh_healthy_returns_same (env : RefreshEnv) (st : MgrState)
    (p : Nat) (s : String)
    (hp : st.connPool = some (some p)) (hprobe : env.probe = .probe true s)
    (hs : s = "started" ∨ s = "alive") :
    refresh env st = (st, .ok (some p)) := by
  have hsucc : roundSucceeds env.probe = true := by
    rw [hprobe]; rcases hs with rfl | rfl <;> rfl
  unfold refresh
  rw [hp]
  simp [hsucc]

/-- Witness for C5 at a concrete state and probe. -/
theorem refresh_healthy_returns_same_w :
    stPoolW.connPool = some (some 0) ∧
    refresh ⟨.probe true "started", true⟩ stPoolW = (stPoolW, .ok (some 0)) :=
  ⟨rfl, refresh_healthy_returns_same ⟨.probe true "started", true⟩ stPoolW 0 "started"
      rfl rfl (Or.inl rfl)⟩

/-- C4: when a stored pool's probe fails (bad status/state) or raises and
    the replacement construction succeeds, the stored pool is destroyed
    exactly once, a brand-new pool (fresh identity, hence distinct from
    the stored one) is built at the same resolved address with
    `max_size=32`, it is stored, and it is the returned handle. -/
theorem refresh_failed_rebuilds (env : RefreshEnv) (st : MgrState) (p : Nat)
    (hwf : st.WF) (hp : st.connPool = some (some p))
    (hfail : roundSucceeds env.probe = false) (hbuild : env.buildOk = true) :
    refresh env st =
      ({ st with logs := st.logs ++ [.error],
                 destroyed := st.destroyed ++ [p],
                 built := st.built ++ [⟨st.nextId, st.infinityUri, 32⟩],
                 connPool := some (some st.nextId),
                 nextId := st.nextId + 1 }, .ok (some st.nextId))
      ∧ st.nextId ≠ p := by
  constructor
  · unfold refresh
    rw [hp]
    simp only [hfail, Bool.false_eq_true, if_false]
    unfold refreshExcept
    simp [hp, hbuild]
  · have := hwf p hp
    omega

/-- Witness for C4 at a concrete state and probe. -/
theorem refresh_failed_rebuilds_w :
    stPoolW.WF ∧ stPoolW.connPool = some (some 0) ∧
    refresh ⟨.throws, true⟩ stPoolW =
      ({ stPoolW with logs := [.error], destroyed := [0],
                      built := [⟨1, defaultAddr, 32⟩],
                      connPool := some (some 1), nextId := 2 }, .ok (some 1)) ∧
    (1 : Nat) ≠ 0 := by
  have hwf : stPoolW.WF := by
    intro p hp
    simp [stPoolW] at hp ⊢
    omega
  have h := refresh_failed_rebuilds ⟨.throws, true⟩ stPoolW 0 hwf rfl rfl rfl
  exact ⟨hwf, rfl, by simpa [stPoolW] using h.1, by omega⟩

/-- C9: when the probe fails and the replacement `ConnectionPool(...)`
    construction itself raises, that exception propagates to the caller
    uncaught: no retry, no fallback handle, the stored pool already
    destroyed. -/
theorem refresh_rebuild_exception (env : RefreshEnv) (st : MgrState) (p : Nat)
    (hp : st.connPool = some (some p))
    (hfail : roundSucceeds env.probe = false) (hbuild : env.buildOk = false) :
    refresh env st =
      ({ st with logs := st.logs ++ [.error],
                 destroyed := st.destroyed ++ [p] },
       .error (.exception "ConnectionPool")) := by
  unfold refresh
  rw [hp]
  simp only [hfail, Bool.false_eq_true, if_false]
  unfold refreshExcept
  simp [hp, hbuild]

/-- Witness for C9 at a concrete state and probe. -/
theorem refresh_rebuild_exception_w :
    stPoolW.connPool = some (some 0) ∧
    refresh ⟨.probe false "bad", false⟩ stPoolW =
      ({ stPoolW with logs := [.error], destroyed := [0] },
       .error (.exception "ConnectionPool")) := by
  have h := refresh_rebuild_exception ⟨.probe false "bad", false⟩ stPoolW 0 rfl rfl rfl
  exact ⟨rfl, by simpa [stPoolW] using h⟩

/-- C10: when the `conn_pool` attribute is absent or holds `None`, a
    `refresh_conn_pool()` call (whose probe then necessarily raises)
    logs the error and falls off the end of the `except` branch,
    returning Python `None` and storing nothing. -/
theorem refresh_absent_returns_none (env : RefreshEnv) (st : MgrState)
    (h : st.connPool = none ∨ st.connPool = some none) :
    refresh env st = ({ st with logs := st.logs ++ [.error] }, .ok none) := by
  rcases h with h | h <;>
    · unfold refresh
      rw [h]
      unfold refreshExcept
      simp [h]

/-- Witness for C10 at a concrete state. -/
theorem refresh_absent_returns_none_w :
    (stNoneW.connPool = none ∨ stNoneW.connPool = some none) ∧
    refresh ⟨.throws, true⟩ stNoneW = ({ stNoneW with logs := [.error] }, .ok none) := by
  have h := refresh_absent_returns_none ⟨.throws, true⟩ stNoneW (Or.inr rfl)
  exact ⟨Or.inr rfl, by simpa [stNoneW] using h⟩

/-! ## Claims about URI parsing -/

/-- C3 counterexample: on `a://b://c` the code's scheme stripping keeps
    `c` — the segment after the LAST `"://"` — whereas splitting on the
    first occurrence and keeping the remainder would give `b://c`. -/
theorem strip_first_occurrence_cex :
    stripScheme ("a://b://c".data) = "c".data ∧
    stripSchemeSpec ("a://b://c".data) = "b://c".data ∧
    stripScheme ("a://b://c".data) ≠ stripSchemeSpec ("a://b://c".data) := by
  decide

/-- C3 (amended): `clean_uri.split("://")[-1]` keeps the segment after
    the LAST occurrence of `"://"`: prefixing any `a ++ "://"` to a
    string `b` free of `"://"` strips down to exactly `b`. -/
theorem strip_scheme_keeps_last (a b : List Char) (hb : hasSep b = false) :
    stripScheme (a ++ ':' :: '/' :: '/' :: b) = b :=
  stripScheme_last a b hb

/-- Witness for the amended C3 at concrete strings. -/
theorem strip_scheme_keeps_last_w :
    hasSep ("host".data) = false ∧
    stripScheme ("x".data ++ ':' :: '/' :: '/' :: "host".data) = "host".data :=
  ⟨by decide, strip_scheme_keeps_last "x".data "host".data (by decide)⟩

/-- C6: for a URI `scheme://host:port` with an optional scheme prefix
    and optional trailing slashes, a decimal port and a colon-free host,
    parsing yields exactly that host and that port (and no log). -/
theorem parse_host_port (sch : Option (List Char)) (host : List Char)
    (n k : Nat) (hh : ':' ∉ host) :
    parseInfinityUri
        (schemePart sch ++ (host ++ ':' :: (decRepr n ++ List.replicate k '/')))
      = (⟨host, (n : Int)⟩, []) := by
  have hsep : hasSep (host ++ ':' :: (decRepr n ++ List.replicate k '/')) = false :=
    hasSep_host_port host n k hh
  have hstrip : stripScheme
      (schemePart sch ++ (host ++ ':' :: (decRepr n ++ List.replicate k '/')))
      = host ++ ':' :: (decRepr n ++ List.replicate k '/') := by
    cases sch with
    | none => rw [schemePart, List.nil_append]; exact stripScheme_of_no_sep _ hsep
    | some s =>
      rw [schemePart, show (s ++ [':', '/', '/'])
          ++ (host ++ ':' :: (decRepr n ++ List.replicate k '/'))
          = s ++ ':' :: '/' :: '/'
            :: (host ++ ':' :: (decRepr n ++ List.replicate k '/')) by simp]
      exact stripScheme_last _ _ hsep
  have hclean : cleanUri
      (schemePart sch ++ (host ++ ':' :: (decRepr n ++ List.replicate k '/')))
      = host ++ ':' :: decRepr n := by
    unfold cleanUri
    rw [hstrip]
    rw [show host ++ ':' :: (decRepr n ++ List.replicate k '/')
        = (host ++ ':' :: decRepr n) ++ List.replicate k '/' by simp]
    rw [pyRstripSlash_append_replicate]
    rcases List.eq_nil_or_concat (decRepr n) with hnil | ⟨L, c, hLc⟩
    · exact absurd hnil (decRepr_ne_nil n)
    · have hc : c ≠ '/' := by
        intro h
        exact no_slash_mem_decRepr n
          (by rw [hLc, h, List.concat_eq_append]; simp)
      rw [hLc, List.concat_eq_append,
        show host ++ ':' :: (L ++ [c]) = (host ++ ':' :: L) ++ [c] by simp,
        pyRstripSlash_concat _ c hc]
  have hparts : splitColon (host ++ ':' :: decRepr n) = [host, decRepr n] := by
    rw [splitColon_append, splitColon_no_colon host hh,
      splitColon_no_colon _ (no_colon_decRepr n)]
    rfl
  simp [parseInfinityUri, parseTry, hclean, hparts, hasColon_append_colon,
    pyInt_decRepr]

/-- Witness for C6 at a concrete scheme, host, port and trailing slash. -/
theorem parse_host_port_w :
    (':' ∉ "myhost".data) ∧
    parseInfinityUri (schemePart (some "http".data)
        ++ ("myhost".data ++ ':' :: (decRepr 1234 ++ List.replicate 1 '/')))
      = (⟨"myhost".data, (1234 : Int)⟩, []) :=
  ⟨by decide, parse_host_port (some "http".data) "myhost".data 1234 1 (by decide)⟩

/-- C7: when the cleaned remainder splits on `:` into more than two
    parts, the code warns and takes the last part as the port and the
    second-to-last as the host. -/
theorem parse_multi_colon (chars front hostSeg : List Char) (n : Nat)
    (hclean : cleanUri chars = front ++ ':' :: (hostSeg ++ ':' :: decRepr n))
    (hc : ':' ∉ hostSeg) :
    parseInfinityUri chars = (⟨hostSeg, (n : Int)⟩, [.warning]) := by
  have hparts : splitColon (cleanUri chars)
      = splitColon front ++ [hostSeg, decRepr n] := by
    rw [hclean, splitColon_append, splitColon_append,
      splitColon_no_colon hostSeg hc, splitColon_no_colon _ (no_colon_decRepr n)]
    simp
  have hlen : (splitColon (cleanUri chars)).length = (splitColon front).length + 2 := by
    rw [hparts, List.length_append]
    rfl
  have hfr : 0 < (splitColon front).length :=
    List.length_pos.mpr (splitColon_ne_nil front)
  have hcolon : hasColon (cleanUri chars) = true := by
    rw [hclean]; exact hasColon_append_colon _ _
  have hlen2 : ¬((splitColon front ++ [hostSeg, decRepr n]).length = 2) := by
    rw [List.length_append]
    have h2 : ([hostSeg, decRepr n] : List (List Char)).length = 2 := rfl
    omega
  have hgetD : (splitColon front ++ [hostSeg, decRepr n]).getD
      ((splitColon front ++ [hostSeg, decRepr n]).length - 2) [] = hostSeg := by
    rw [show (splitColon front ++ [hostSeg, decRepr n]).length - 2
        = (splitColon front).length by rw [List.length_append]; rfl]
    exact getD_append_two _ _ _ _
  simp only [parseInfinityUri, parseTry]
  rw [hcolon, if_pos rfl, hparts, if_neg hlen2, getLastD_append_two,
    pyInt_decRepr, hgetD]

/-- Witness for C7 at the spec's own example `h:extra:1234`. -/
theorem parse_multi_colon_w :
    cleanUri ("h:extra:1234".data)
      = "h".data ++ ':' :: ("extra".data ++ ':' :: decRepr 1234) ∧
    (':' ∉ "extra".data) ∧
    parseInfinityUri ("h:extra:1234".data)
      = (⟨"extra".data, (1234 : Int)⟩, [.warning]) :=
  ⟨by decide, by decide,
    parse_multi_colon "h:extra:1234".data "h".data "extra".data 1234
      (by decide) (by decide)⟩

/-- C8: whenever the `try` body raises — that is, exactly when `int` is
    reached with a non-numeric last colon-part — parsing recovers
    locally: the result is the fixed default `127.0.0.1:23817` and an
    error is logged; no failure reaches the caller (the parse function
    is total). -/
theorem parse_error_fallback (chars : List Char)
    (hc : hasColon (cleanUri chars) = true)
    (hbad : pyInt ((splitColon (cleanUri chars)).getLastD []) = none) :
    (parseInfinityUri chars).1 = defaultAddr ∧
    LogEvent.error ∈ (parseInfinityUri chars).2 := by
  simp only [parseInfinityUri, parseTry]
  rw [hc, if_pos rfl]
  by_cases hlen : (splitColon (cleanUri chars)).length = 2
  · rw [if_pos hlen, hbad]
    simp
  · rw [if_neg hlen, hbad]
    simp

/-- Witness for C8 on the non-numeric port `h:ab`. -/
theorem parse_error_fallback_w :
    hasColon (cleanUri ("h:ab".data)) = true ∧
    pyInt ((splitColon (cleanUri ("h:ab".data))).getLastD []) = none ∧
    (parseInfinityUri ("h:ab".data)).1 = defaultAddr ∧
    LogEvent.error ∈ (parseInfinityUri ("h:ab".data)).2 := by
  have h := parse_error_fallback ("h:ab".data) (by decide) (by decide)
  exact ⟨by decide, by decide, h.1, h.2⟩

end InfinityPool
